import Mathlib

/-!
Verification development for the UPC syllabus ETL repository.

The Python sources are shallowly embedded: strings become `List Char`,
Python exceptions become `Except String`, mutable index loops become
structural recursions over a zipper of processed/remaining rows, and
`datetime.date` values become integer day counts (one week = 7 days,
which is exactly how `timedelta(weeks=w)` behaves).
-/

set_option maxRecDepth 100000
set_option synthInstance.maxSize 512

namespace UPC

/-- Strings of the Python source are modelled as lists of characters. -/
abbrev Str := List Char

/-- A raw table row (list of cell strings) as produced by the extractor. -/
abbrev Row := List Str

/-- A raw table: ordered list of rows. -/
abbrev Table := List Row

/-- Python whitespace test, restricted to the characters occurring in the
syllabus tables (space, tab, CR, LF). -/
def wsB (c : Char) : Bool := c = ' ' || c = '\t' || c = '\n' || c = '\r'

/-- Python `str.strip()`: drop leading and trailing whitespace. -/
def strip (s : Str) : Str := ((s.dropWhile wsB).reverse.dropWhile wsB).reverse

/-- Python `str.startswith(p)`. -/
def sw : Str → Str → Bool
  | [], _ => true
  | _ :: _, [] => false
  | p :: ps, c :: cs => p = c && sw ps cs

/-- Strip a literal prefix, or fail: the deterministic part of an anchored
regular-expression match. -/
def stripPre? : Str → Str → Option Str
  | [], s => some s
  | _ :: _, [] => none
  | p :: ps, c :: cs => if p = c then stripPre? ps cs else none

/-- Python substring test `needle in hay`. -/
def containsStr (hay needle : Str) : Bool :=
  sw needle hay ||
    match hay with
    | [] => false
    | _ :: t => containsStr t needle

/-- Numeric value of a digit string (most significant digit first). -/
def natOfDigits (s : Str) : Nat := s.foldl (fun a c => 10 * a + (c.toNat - 48)) 0

/-- Python `int(s)` on a string: strip whitespace, optional sign, then a
nonempty run of decimal digits (digit-group underscores are not modelled;
no input in this repository uses them). -/
def pyInt (s : Str) : Except String Int :=
  let t := strip s
  match t with
  | '+' :: ds =>
      if ds ≠ [] && ds.all (·.isDigit) then .ok (natOfDigits ds : Int)
      else .error "invalid literal for int"
  | '-' :: ds =>
      if ds ≠ [] && ds.all (·.isDigit) then .ok (-(natOfDigits ds : Int))
      else .error "invalid literal for int"
  | ds =>
      if ds ≠ [] && ds.all (·.isDigit) then .ok (natOfDigits ds : Int)
      else .error "invalid literal for int"

/-- Python `float(s)` for the decimal forms occurring in the tables
(optional sign, digits with an optional fractional part; exponent,
infinity and NaN spellings are not modelled — no syllabus cell uses
them). The value is represented exactly as a rational. -/
def pyFloatCore (t : Str) : Except String ℚ :=
  let ip := t.takeWhile (·.isDigit)
  let r := t.drop ip.length
  match r with
  | [] =>
      if ip ≠ [] then .ok ((natOfDigits ip : ℚ))
      else .error "could not convert string to float"
  | '.' :: fp =>
      if fp.all (·.isDigit) && (ip ≠ [] || fp ≠ []) then
        .ok ((natOfDigits ip : ℚ) + (natOfDigits fp : ℚ) / 10 ^ fp.length)
      else .error "could not convert string to float"
  | _ => .error "could not convert string to float"

/-- Python `float(s)`: strip whitespace, optional sign, decimal form. -/
def pyFloat (s : Str) : Except String ℚ :=
  let t := strip s
  match t with
  | '+' :: r => pyFloatCore r
  | '-' :: r => (pyFloatCore r).map (fun q => -q)
  | r => pyFloatCore r

/-- Python `str.lower()`, modelled for the character set appearing in the
assessment tables (ASCII letters plus the accented I of the word "SÍ"). -/
def pyToLower (c : Char) : Char :=
  if 'A' ≤ c && c ≤ 'Z' then Char.ofNat (c.toNat + 32)
  else if c = 'Í' then 'í'
  else c

/-- Python `str.lower()` on a whole string. -/
def pyLower (s : Str) : Str := s.map pyToLower

/-- Python `s.split('-', 1)` when a dash is present, `(s, '')` otherwise:
split at the first dash. -/
def splitFirstDash : Str → Str × Str
  | [] => ([], [])
  | c :: cs =>
      if c = '-' then ([], cs)
      else
        let p := splitFirstDash cs
        (c :: p.1, p.2)

/-- Python `s.rstrip(perc)` for the percent sign: drop trailing `%`. -/
def rstripPct (s : Str) : Str := (s.reverse.dropWhile (· = '%')).reverse

/-- Python `s.replace(pat, empty)`: the scan, with a step-count argument;
each step consumes at least one character, so `s.length` steps always
suffice (at step count 0 the string is already empty). -/
def removeAllF (pat : Str) : Nat → Str → Str
  | 0, s => s
  | _ + 1, [] => []
  | f + 1, c :: cs =>
      if sw pat (c :: cs) && pat ≠ [] then
        removeAllF pat f ((c :: cs).drop pat.length)
      else c :: removeAllF pat f cs

/-- Python `s.replace(pat, empty)`: delete every occurrence of `pat`
(non-overlapping, left to right; the source only calls this with a
nonempty pattern). -/
def removeAll (pat s : Str) : Str := removeAllF pat s.length s

/-- Replace newline characters by spaces inside a cell
(Python `field.replace(backslash-n, space)`). -/
def nlToSpace (s : Str) : Str := s.map (fun c => if c = '\n' then ' ' else c)

/-- Split a string at every character satisfying `p`
(Python `re.split` over a character class). -/
def splitOnP (p : Char → Bool) : Str → List Str
  | [] => [[]]
  | c :: cs =>
      if p c then [] :: splitOnP p cs
      else
        match splitOnP p cs with
        | [] => [[c]]
        | s :: ss => (c :: s) :: ss

/-- Bullet glyphs recognised by `parse_bullet_list`: the private-use-area
bullet `U+F0B7` and the visible bullet `U+2022`. -/
def isBullet (c : Char) : Bool := c = Char.ofNat 0xF0B7 || c = '•'

/-- Source `_parse_bullet_list` / `parse_bullet_list`: split on bullet
glyphs, strip each item, drop empties. -/
def parse_bullet_list (s : Str) : List Str :=
  ((splitOnP isBullet s).map strip).filter (· ≠ [])

/-! ### Section segmenter (`SyllabusRaw._get_section`, etl_courses.py) -/

/-- The fixed eleven-title section vocabulary (`SyllabusRaw.SECTION_NAMES`). -/
def SECTION_NAMES : List Str :=
  ["I. INFORMACIÓN GENERAL", "II. MISIÓN Y VISIÓN DE LA UPC",
   "III. INTRODUCCIÓN", "IV. LOGRO (S) DEL CURSO",
   "V. COMPETENCIAS (S) DEL CURSO", "VI. UNIDADES DE APRENDIZAJE",
   "VII. METODOLOGÍA", "VIII. EVALUACIÓN", "IX. BIBLIOGRAFÍA DEL CURSO",
   "X. RECURSOS TECNOLÓGICOS", "XI. Anexos"].map String.toList

/-- Inner loop of `_get_section` over the lines of one page.  State is the
`in_section` flag; a line containing the requested name (Python substring
test) switches collection on; once on, a line that exactly equals a
vocabulary title stops the page scan (Python `break`) WITHOUT resetting
`in_section`; other lines are collected. -/
def sectionPage (name : Str) : Bool → List Str → Bool × List Str
  | inSec, [] => (inSec, [])
  | inSec, l :: ls =>
      if containsStr l name then sectionPage name true ls
      else if inSec then
        if l ∈ SECTION_NAMES then (inSec, [])
        else
          let p := sectionPage name true ls
          (p.1, l :: p.2)
      else sectionPage name false ls

/-- Outer loop of `_get_section`: thread `in_section` across the pages,
concatenating the collected lines in page order. -/
def getSectionLines (name : Str) (pages : List (List Str)) : List Str :=
  (pages.foldl
    (fun (st : Bool × List Str) page =>
      let p := sectionPage name st.1 page
      (p.1, st.2 ++ p.2))
    (false, [])).2

/-- Source `_get_section`: reject unrecognised section names
(Python `raise ValueError`), otherwise return the collected lines
(the source then joins them with newlines). -/
def get_section (name : Str) (pages : List (List Str)) :
    Except String (List Str) :=
  if name ∈ SECTION_NAMES then .ok (getSectionLines name pages)
  else .error "Section name is not recognized"

/-! ### Filename metadata parser (`UPCSyllabusParser.parse_metadata`,
etl_infrastructure.py) -/

/-- Immutable course identity derived from the filename (etl_domain.py). -/
structure CourseMetadata where
  course_id : Str
  nrc : Str
  period : Str
  deriving DecidableEq, Repr

/-- Character class `[A-Z0-9_\-]` of the filename id group. -/
def idChar (c : Char) : Bool :=
  ('A' ≤ c && c ≤ 'Z') || c.isDigit || c = '_' || c = '-'

/-- Anchored match of the source regular expression
`UG-(\d{5})0_([A-Z0-9_\-]{8})-(\d{4})\.pdf$` against the filename.
All groups are fixed-width, so the match is deterministic.  The trailing
`$` of a Python pattern matches at the end of the string AND just before
a newline that ends the string, so after `.pdf` either nothing or exactly
one final newline is accepted.  On success the `CourseMetadata` is built
exactly as in `parse_metadata`: the period group is split after its
fourth digit and rejoined with a dash. -/
def matchFilename (s : Str) : Option CourseMetadata := do
  let r1 ← stripPre? "UG-".toList s
  let d5 := r1.take 5
  if d5.length = 5 && d5.all (·.isDigit) then
    let r2 ← stripPre? "0_".toList (r1.drop 5)
    let id8 := r2.take 8
    if id8.length = 8 && id8.all idChar then
      let r3 ← stripPre? "-".toList (r2.drop 8)
      let n4 := r3.take 4
      if n4.length = 4 && n4.all (·.isDigit) then
        if r3.drop 4 = ".pdf".toList || r3.drop 4 = ".pdf\n".toList then
          some ⟨id8, n4, d5.take 4 ++ '-' :: d5.drop 4⟩
        else none
      else none
    else none
  else none

/-- Source `parse_metadata`: return the metadata on a match, raise
`ValueError` (modelled as `.error`) otherwise. -/
def parse_metadata (s : Str) : Except String CourseMetadata :=
  match matchFilename s with
  | some m => .ok m
  | none => .error "Invalid filename format"

/-- Modelled from the spec claim wording of C5: a filename of shape
`UG-<5-digit-period><1-digit-subterm>_<8-char-alphanumeric-id>-<4-digit-nrc>.pdf`
with an arbitrary subterm digit and an alphanumeric id.  This is the
claim-side pattern, to be compared with the source-side `matchFilename`. -/
def matchesClaimPattern (s : Str) : Bool :=
  match stripPre? "UG-".toList s with
  | none => false
  | some r1 =>
      let d6 := r1.take 6
      d6.length = 6 && d6.all (·.isDigit) &&
        (match stripPre? "_".toList (r1.drop 6) with
         | none => false
         | some r2 =>
             let id8 := r2.take 8
             id8.length = 8 && id8.all (·.isAlphanum) &&
               (match stripPre? "-".toList (r2.drop 8) with
                | none => false
                | some r3 =>
                    let n4 := r3.take 4
                    n4.length = 4 && n4.all (·.isDigit) &&
                      r3.drop 4 = ".pdf".toList))

/-! ### Period calendar resolver (`weeks_to_dates`, etl_courses.py)

Dates are modelled as integer day counts; `config.start_date(period)` and
`config.end_date(period)` are passed in as the resolved day counts
`s` and `e` (the claims quantify over configured periods only, so the
lookup always succeeds).  `timedelta(weeks=w)` is `7 * w` days and
`timedelta(days=d)` is `d` days. -/

/-- Source `weeks_to_dates`.  Faithful to the Python truthiness test
`if week2:` — both `None` and `0` take the default-end branch; the
`week1 > week2` validation runs only in the truthy branch. -/
def weeks_to_dates (s e : Int) (week1 : Int) (week2 : Option Int) :
    Except String (Int × Int) :=
  let start_date := s + 7 * (week1 - 1)
  match week2 with
  | some w2 =>
      if w2 ≠ 0 then
        if week1 > w2 then .error "Rango de semanas invalido"
        else .ok (start_date, e + 7 * (w2 - 1))
      else .ok (start_date, start_date + 5)
  | none => .ok (start_date, start_date + 5)

/-! ### Assessment-table reconstructor
(`ETLPipeline._parse_assessments_from_table`, etl_pipeline.py) -/

/-- Typed assessment record (etl_domain.py `Assessment`); the float weight
is represented exactly as a rational. -/
structure Assessment where
  name : Str
  code : Str
  weight : ℚ
  week : Int
  is_recoverable : Bool
  deriving DecidableEq, Repr

/-- The literal recurring column-header row of the assessment table. -/
def assessHeader : Row :=
  ["TIPO", "COMPETENCIA", "PESO", "SEMANA", "OBSERVACIÓN",
   "RECUPERABLE"].map String.toList

/-- Per-row body of the `for row in table:` loop of
`_parse_assessments_from_table`: `none` means the row is skipped or
dropped (`continue`), `some a` means `a` is appended. -/
def parseAssessmentRow (row : Row) : Option Assessment :=
  if row = assessHeader then none
  else
    let row := row.map (fun f => strip (nlToSpace f))
    if row.length < 4 then none
    else
      let p := splitFirstDash (row.getD 0 [])
      let name := p.1
      let code := strip p.2
      match pyInt (row.getD 3 []) with
      | .error _ => none
      | .ok week =>
          let weight :=
            match pyFloat (rstripPct (row.getD 2 [])) with
            | .error _ => (0 : ℚ)
            | .ok w => w
          let is_recoverable :=
            decide (row.length > 5) && containsStr (pyLower (row.getD 5 [])) "sí".toList
          some ⟨name, code, weight, week, is_recoverable⟩

/-- Source `_parse_assessments_from_table`: keep the rows the loop appends,
in input order (the `if not table: return []` guard coincides with the
empty fold). -/
def parse_assessments_from_table (t : Table) : List Assessment :=
  t.filterMap parseAssessmentRow

/-! ### Unit-table reconstructor
(`ETLPipeline._parse_units_from_table` with its inner
`clean_table_structure`, `parse_title` and `parse_week_row`,
etl_pipeline.py) -/

/-- Typed learning-unit record (etl_domain.py `Unit`). -/
structure CUnit where
  number : Int
  title : Str
  achievement : Str
  week_range : Int × Int
  syllabus : List Str
  activities : List Str
  deriving DecidableEq, Repr

/-- Python `row[0]`: first cell of a row, `IndexError` if the row is empty. -/
def cell0 : Row → Except String Str
  | [] => .error "list index out of range"
  | c :: _ => .ok c

/-- Python `table[i]` access inside the 5-row block loop. -/
def nthRow (t : Table) (i : Nat) : Except String Row :=
  match t[i]? with
  | some r => .ok r
  | none => .error "list index out of range"

/-- Inner `join_with_previous` cell merge:
`(prev.strip() + ' ' + curr.strip()).strip() if curr else prev`. -/
def mergeCell (p c : Str) : Str :=
  if c = [] then p else strip (strip p ++ ' ' :: strip c)

/-- Inner `join_with_previous` row merge: cell-wise merge over `zip`
(which truncates to the shorter row) followed by the extra trailing cells
of the fragment row when it is longer. -/
def joinRows (prev curr : Row) : Row :=
  List.zipWith mergeCell prev curr ++ curr.drop prev.length

/-- Literal row-kind markers tested by `clean_table_structure`. -/
def swTitle : Str := "Unidad n.".toList
/-- Marker of the competency row. -/
def swComp : Str := "COMPETENCIA (S):".toList
/-- Marker of the achievement row. -/
def swLogro : Str := "LOGRO DE LA UNIDAD:".toList
/-- Marker of the header row. -/
def swHdr : Str := "SEMANA".toList
/-- Marker of the week data row. -/
def swWeek : Str := "Semana".toList

/-- Parse positions of the `clean_table_structure` scan after the title
row of the current block has been consumed: which row kind the loop
index `i` currently expects. -/
inductive Ph where
  | comp | logro | hdr | week | tail
  deriving DecidableEq, Repr

/-- The `while i < len(table)` scan of `clean_table_structure` as a zipper:
`done` holds rows `table[0..i)` in reverse, the list argument holds
`table[i..)`.  `i += 1` moves a row onto `done`; `join_with_previous(i)`
merges the head of the remaining rows into the head of `done`.  Phases:
`comp`/`week` are the single-row checks that raise on mismatch,
`logro`/`hdr` are the merge loops that raise when the mismatching row is
the last one, `tail` is the final unconditional merge loop.  When the
`tail` loop meets a row starting `Unidad n.`, the outer `while` re-checks
exactly that marker (the title check of the next block) and consumes the
row, so the `tail` case moves directly to `comp`; the title check can
fail only on the very first row of the table, which `clean_table_structure`
below handles. -/
def cleanAux : Ph → Table → Table → Except String Table
  | _, done, [] => .ok done.reverse
  | .comp, done, r :: rs =>
      match r with
      | [] => .error "list index out of range"
      | c :: _ =>
          if sw swComp c then cleanAux .logro (r :: done) rs
          else .error "Invalid competition format"
  | .logro, done, r :: rs =>
      match r with
      | [] => .error "list index out of range"
      | c :: _ =>
          if sw swLogro c then cleanAux .hdr (r :: done) rs
          else if rs = [] then .error "Invalid achievement format"
          else
            match done with
            | [] => .error "unreachable merge with no previous row"
            | pr :: ds => cleanAux .logro (joinRows pr r :: ds) rs
  | .hdr, done, r :: rs =>
      match r with
      | [] => .error "list index out of range"
      | c :: _ =>
          if sw swHdr c then cleanAux .week (r :: done) rs
          else if rs = [] then .error "Invalid header format"
          else
            match done with
            | [] => .error "unreachable merge with no previous row"
            | pr :: ds => cleanAux .hdr (joinRows pr r :: ds) rs
  | .week, done, r :: rs =>
      match r with
      | [] => .error "list index out of range"
      | c :: _ =>
          if sw swWeek c then cleanAux .tail (r :: done) rs
          else .error "Invalid week format"
  | .tail, done, r :: rs =>
      match r with
      | [] => .error "list index out of range"
      | c :: _ =>
          if sw swTitle c then cleanAux .comp (r :: done) rs
          else
            match done with
            | [] => .error "unreachable merge with no previous row"
            | pr :: ds => cleanAux .tail (joinRows pr r :: ds) rs

/-- Source `clean_table_structure`: an empty table returns immediately
(the `while` guard); otherwise the first row must carry the title marker
(`raise ValueError` if not) and the scan proceeds from the competency
position. -/
def clean_table_structure : Table → Except String Table
  | [] => .ok []
  | r :: rs =>
      match r with
      | [] => .error "list index out of range"
      | c :: _ =>
          if sw swTitle c then cleanAux .comp [r] rs
          else .error "Invalid unit title format"

/-- Source `parse_title`: the anchored regular expression
`Unidad n\. (\d+): (.+)` — the literal prefix, a nonempty greedy digit
run, the literal `: `, then at least one non-newline character. -/
def parse_title (s : Str) : Except String (Int × Str) :=
  match stripPre? "Unidad n. ".toList s with
  | none => .error "Invalid unit title format"
  | some r =>
      let ds := r.takeWhile (·.isDigit)
      if ds = [] then .error "Invalid unit title format"
      else
        match stripPre? ": ".toList (r.drop ds.length) with
        | none => .error "Invalid unit title format"
        | some r2 =>
            let t := r2.takeWhile (· ≠ '\n')
            if t = [] then .error "Invalid unit title format"
            else .ok ((natOfDigits ds : Int), t)

/-- Character class `[\d,\s-]` of the week-range groups. -/
def weekClass (c : Char) : Bool := c.isDigit || c = ',' || wsB c || c = '-'

/-- Splits at the last dash that still leaves a nonempty remainder: the
backtracking behaviour of the greedy first group of
`Semana ([\d,\s-]+)\s*-\s*([\d,\s-]+)`.  Since every separator character
also belongs to the capture class, the regex places the separator dash at
the last dash of the class run that keeps both groups nonempty; any
whitespace the engine assigns to `\s*` is kept inside the returned groups
here, which is invisible through the `int()` calls that consume them. -/
def sld : Str → Option (Str × Str)
  | [] => none
  | c :: cs =>
      match sld cs with
      | some p => some (c :: p.1, p.2)
      | none => if c = '-' && cs ≠ [] then some ([], cs) else none

/-- Group extraction of the week-range regular expression on the first
cell: literal `Semana `, then the class run, split at the separator dash;
the first group must be nonempty. -/
def weekMatch (s : Str) : Option (Str × Str) :=
  match stripPre? "Semana ".toList s with
  | none => none
  | some r =>
      let run := r.takeWhile weekClass
      match sld run with
      | some p => if p.1 = [] then none else some p
      | none => none

/-- Source `parse_week_row`: replace newlines by spaces in every cell,
match the week-range expression on the first cell (raising on failure,
as does a non-integer captured group), and parse the up-to-four trailing
cells as bulleted lists, defaulting to empty when the row is short. -/
def parse_week_row (row : Row) :
    Except String (Int × Int × List Str × List Str × List Str × List Str) :=
  let row := row.map nlToSpace
  match row with
  | [] => .error "list index out of range"
  | c0 :: _ =>
      match weekMatch c0 with
      | none => .error "Invalid week format"
      | some p => do
          let w1 ← pyInt p.1
          let w2 ← pyInt p.2
          let syllabus := if row.length > 1 then parse_bullet_list (row.getD 1 []) else []
          let activities := if row.length > 2 then parse_bullet_list (row.getD 2 []) else []
          let exams := if row.length > 3 then parse_bullet_list (row.getD 3 []) else []
          let biblio := if row.length > 4 then parse_bullet_list (row.getD 4 []) else []
          .ok (w1, w2, syllabus, activities, exams, biblio)

/-- The `for i in range(0, len(table), 5)` loop over the cleaned table:
each block reads `table[i]` (title), `table[i+2]` (achievement) and
`table[i+4]` (week row) in that order; a missing row raises `IndexError`
at the corresponding access, after the accesses before it succeeded. -/
def parseBlocks : Table → Except String (List CUnit)
  | [] => .ok []
  | [r0] => do
      let c0 ← cell0 r0
      let _ ← parse_title c0
      .error "list index out of range"
  | [r0, _] => do
      let c0 ← cell0 r0
      let _ ← parse_title c0
      .error "list index out of range"
  | [r0, _, r2] => do
      let c0 ← cell0 r0
      let _ ← parse_title c0
      let _ ← cell0 r2
      .error "list index out of range"
  | [r0, _, r2, _] => do
      let c0 ← cell0 r0
      let _ ← parse_title c0
      let _ ← cell0 r2
      .error "list index out of range"
  | r0 :: _ :: r2 :: _ :: r4 :: rest => do
      let c0 ← cell0 r0
      let nt ← parse_title c0
      let c2 ← cell0 r2
      let w ← parse_week_row r4
      let us ← parseBlocks rest
      .ok (⟨nt.1, nt.2, strip (removeAll swLogro c2), (w.1, w.2.1),
            w.2.2.1, w.2.2.2.1⟩ :: us)

/-- Source `_parse_units_from_table`: empty tables yield no units,
otherwise clean the structure and parse the 5-row blocks. -/
def parse_units_from_table (t : Table) : Except String (List CUnit) :=
  if t = [] then .ok []
  else do
    let ct ← clean_table_structure t
    parseBlocks ct

/-! ### Course assembler (`Course.from_raw`, etl_courses.py)

The general-info text parsing (`parse_general_info`) produces a field
dictionary; the assembly and cross-validation from line 214 on is embedded
with that dictionary as an explicit input, and the unit/assessment lists
(computed by `Unit.from_raw` / `Exam.from_raw` before the constructor
call) as parameters.  `print` warnings become a returned list of
structured warnings carrying exactly the values the f-strings interpolate. -/

/-- The fields of the `parse_general_info` dictionary used by the
assembly: `id` is always present (possibly empty — `search_label` returns
the empty string on no match), `nrc` is present only when `int(nrc)`
succeeded. -/
structure ParsedInfo where
  id : Str
  name : Str
  period : Str
  faculty : List Str
  credits : Option Int
  weeks : Option Int
  area : List Str
  nrc : Option Int
  deriving DecidableEq, Repr

/-- Cross-validation warnings of `Course.from_raw`, carrying both the
content-derived and the filename-derived value. -/
inductive MismatchWarning where
  | idMismatch (parsedId : Str) (filenameId : Str)
  | nrcMismatch (parsedNrc : Option Int) (filenameNrc : Str)
  deriving DecidableEq, Repr

/-- The script-draft `Course` object, polymorphic in the unit and
assessment record types. -/
structure CourseC (υ α : Type) where
  id : Str
  name : Str
  period : Str
  faculty : List Str
  credits : Option Int
  weeks : Option Int
  area : List Str
  nrc : Option Int
  units : List υ
  assessments : List α

/-- Python `str(x)` for the optional parsed NRC:
`str(None)` is the text `None`, `str(int)` is its decimal form. -/
def pyStrOfOptInt : Option Int → Str
  | none => "None".toList
  | some n => (toString n).toList

/-- Source `Course.from_raw` after `parse_general_info`: compare the
content-derived id with the filename-derived one and the string form of
the content-derived NRC with the filename-derived one, warn on each
mismatch, then build the `Course` from the content-derived values.
The function is total: no path raises. -/
def course_from_raw {υ α : Type} (parsed : ParsedInfo)
    (filenameId filenameNrc : Str) (units : List υ) (assessments : List α) :
    CourseC υ α × List MismatchWarning :=
  let w1 : List MismatchWarning :=
    if parsed.id ≠ filenameId then [.idMismatch parsed.id filenameId] else []
  let w2 : List MismatchWarning :=
    if pyStrOfOptInt parsed.nrc ≠ filenameNrc then
      [.nrcMismatch parsed.nrc filenameNrc] else []
  (⟨parsed.id, parsed.name, parsed.period, parsed.faculty, parsed.credits,
    parsed.weeks, parsed.area, parsed.nrc, units, assessments⟩, w1 ++ w2)

/-! ### Batch processing (`ETLPipeline.process_syllabus` /
`process_directory`, etl_pipeline.py, and `transform`, etl_courses.py)

Each document's full per-document pipeline is abstracted by its outcome:
`Except.ok course` when `Course` assembly succeeds, `Except.error e` when
any per-document step raises.  What is embedded is the batch control
flow around those outcomes. -/

/-- Source `process_syllabus`: the whole per-document pipeline is wrapped
in `try/except`, returning `None` on any exception. -/
def process_syllabus {γ : Type} (doc : Except String γ) : Option γ :=
  match doc with
  | .ok c => some c
  | .error _ => none

/-- Source `process_directory`: collect the non-`None` results of
`process_syllabus` over all documents (future completion order is
irrelevant to which courses are emitted; the list here keeps input
order). -/
def process_directory {γ : Type} (docs : List (Except String γ)) : List γ :=
  docs.filterMap process_syllabus

/-- Source `transform` (etl_courses.py): the `try` wraps the WHOLE `for`
loop, so the first raising document breaks out of the loop and the
courses accumulated so far are returned. -/
def transform {γ : Type} : List (Except String γ) → List γ
  | [] => []
  | .ok c :: ds => c :: transform ds
  | .error _ :: _ => []

/-! ### Well-formed 5-row unit blocks

A `UBlock` packages the five logical rows of one unit together with the
values its title and week rows parse to; `UBlock.OK` states the
row-marker facts `clean_table_structure` tests and the parse results
`_parse_units_from_table` extracts.  These predicates quantify the
synthetic well-formed tables of the round-trip claims. -/

/-- One well-formed logical unit block: first cells `c0..c4`, remaining
cells `r0..r4`, and the parsed title/week values. -/
structure UBlock where
  c0 : Str
  c1 : Str
  c2 : Str
  c3 : Str
  c4 : Str
  r0 : Row
  r1 : Row
  r2 : Row
  r3 : Row
  r4 : Row
  num : Int
  ttl : Str
  w1 : Int
  w2 : Int
  syl : List Str
  act : List Str
  exs : List Str
  bib : List Str

/-- The five physical rows of a block. -/
def UBlock.rows (b : UBlock) : Table :=
  [b.c0 :: b.r0, b.c1 :: b.r1, b.c2 :: b.r2, b.c3 :: b.r3, b.c4 :: b.r4]

/-- Well-formedness: each row carries its marker, and the title and week
rows parse to the packaged values. -/
structure UBlock.OK (b : UBlock) : Prop where
  h0 : sw swTitle b.c0 = true
  h1 : sw swComp b.c1 = true
  h2 : sw swLogro b.c2 = true
  h3 : sw swHdr b.c3 = true
  h4 : sw swWeek b.c4 = true
  ht : parse_title b.c0 = .ok (b.num, b.ttl)
  hw : parse_week_row (b.c4 :: b.r4) =
         .ok (b.w1, b.w2, b.syl, b.act, b.exs, b.bib)

/-- The unit record a well-formed block parses to. -/
def UBlock.unit (b : UBlock) : CUnit :=
  ⟨b.num, b.ttl, strip (removeAll swLogro b.c2), (b.w1, b.w2), b.syl, b.act⟩

/-- The physical table of a sequence of blocks. -/
def blocksRows (bs : List UBlock) : Table := (bs.map UBlock.rows).flatten

/-- Marker facts alone (what `clean_table_structure` tests). -/
structure UBlock.Marks (b : UBlock) : Prop where
  h0 : sw swTitle b.c0 = true
  h1 : sw swComp b.c1 = true
  h2 : sw swLogro b.c2 = true
  h3 : sw swHdr b.c3 = true
  h4 : sw swWeek b.c4 = true

/-- A well-formed block satisfies the marker facts. -/
def UBlock.OK.marks {b : UBlock} (h : b.OK) : b.Marks :=
  ⟨h.h0, h.h1, h.h2, h.h3, h.h4⟩

/-- Success test on a Python-exception result. -/
def okB {α : Type} : Except String α → Bool
  | .ok _ => true
  | .error _ => false

deriving instance DecidableEq for Except

/-! ### Auxiliary definitions for the claim statements -/

/-- Build a row from string literals. -/
def rowS (l : List String) : Row := l.map String.toList

/-- Well-formedness of the three groups of the source filename pattern:
five period digits, eight id-class characters, four NRC digits. -/
def GoodName (d5 id8 n4 : Str) : Prop :=
  d5.length = 5 ∧ (∀ c ∈ d5, c.isDigit) ∧
  id8.length = 8 ∧ (∀ c ∈ id8, idChar c) ∧
  n4.length = 4 ∧ (∀ c ∈ n4, c.isDigit)

/-- The filename assembled from the three groups together with the literal
parts of the source pattern (subterm digit `0` included). -/
def buildName (d5 id8 n4 : Str) : Str :=
  "UG-".toList ++ d5 ++ '0' :: '_' :: (id8 ++ '-' :: (n4 ++ ".pdf".toList))

/-- The same filename with the one trailing newline that the terminal `$`
of the source pattern also accepts. -/
def buildNameNl (d5 id8 n4 : Str) : Str :=
  "UG-".toList ++ d5 ++ '0' :: '_' :: (id8 ++ '-' :: (n4 ++ ".pdf\n".toList))

/-- A line that contains no vocabulary title as a substring (the shape of
ordinary body lines). -/
def noTitleSub (l : Str) : Bool :=
  SECTION_NAMES.all (fun T => !(containsStr l T))

/-- One title block of a segmented page: the title line and its body. -/
abbrev SBlock := Str × List Str

/-- The page lines of a list of title blocks. -/
def flattenSB (bs : List SBlock) : List Str :=
  (bs.map (fun b => b.1 :: b.2)).flatten

/-! Concrete inputs used by the counterexamples and witnesses. -/

/-- Example assessment row from the spec. -/
def exRow : Row := rowS ["Examen Parcial-EP1", "C1", "20%", "8", "", "No"]

/-- Assessment row whose recoverability cell is the unaccented `Si`. -/
def siRow : Row := rowS ["Examen Parcial-EP1", "C1", "20%", "8", "", "Si"]

/-- Assessment row with a non-integer week cell. -/
def ochoRow : Row := rowS ["Tarea-TB1", "C1", "20%", "ocho", "", "No"]

/-- Unfragmented title row of the unit-table counterexample. -/
def c1row0 : Row := rowS ["Unidad n. 1: Alfa Beta"]
/-- First physical fragment of the title row (wrap after the first word). -/
def c1r0a : Row := rowS ["Unidad n. 1: Alfa"]
/-- Second physical fragment of the title row. -/
def c1r0b : Row := rowS ["Beta"]
/-- The remaining four logical rows of the single unit. -/
def c1rest : Table :=
  [rowS ["COMPETENCIA (S):"],
   rowS ["LOGRO DE LA UNIDAD: logro uno"],
   rowS ["SEMANA", "TEMARIO"],
   rowS ["Semana 1 - 4", "• a • b"]]
/-- The well-formed single-unit table. -/
def c1base : Table := c1row0 :: c1rest
/-- The same table with the title row fragmented into two physical rows. -/
def c1frag : Table := c1r0a :: c1r0b :: c1rest

/-- Two-unit table whose second title is wrapped so that NEITHER fragment
carries the `Unidad n.` marker: the tail merge loop absorbs the whole
second block into the first week row. -/
def c1absTab : Table :=
  [rowS ["Unidad n. 1: Alfa"],
   rowS ["COMPETENCIA (S):"],
   rowS ["LOGRO DE LA UNIDAD: uno"],
   rowS ["SEMANA"],
   rowS ["Semana 1 - 4"],
   rowS ["Unidad"],
   rowS ["n. 2: Beta"],
   rowS ["COMPETENCIA (S):"],
   rowS ["LOGRO DE LA UNIDAD: dos"],
   rowS ["SEMANA"],
   rowS ["Semana 5 - 8"]]

/-- One-unit table whose competency row is wrapped so that the first
fragment no longer carries the full `COMPETENCIA (S):` marker. -/
def c1compFragTab : Table :=
  [rowS ["Unidad n. 1: Alfa"],
   rowS ["COMPETENCIA"],
   rowS ["(S): x"],
   rowS ["LOGRO DE LA UNIDAD: uno"],
   rowS ["SEMANA"],
   rowS ["Semana 1 - 4"]]

/-- The unfragmented form of `c1compFragTab`. -/
def c1compBaseTab : Table :=
  [rowS ["Unidad n. 1: Alfa"],
   rowS ["COMPETENCIA (S): x"],
   rowS ["LOGRO DE LA UNIDAD: uno"],
   rowS ["SEMANA"],
   rowS ["Semana 1 - 4"]]

/-- One-unit table whose header row is wrapped so that its first fragment
does not carry `SEMANA` (the marker sits in the second fragment). -/
def c1hdrFragTab : Table :=
  [rowS ["Unidad n. 1: Alfa"],
   rowS ["COMPETENCIA (S):"],
   rowS ["LOGRO DE LA UNIDAD: uno"],
   rowS ["", "TEMARIO"],
   rowS ["SEMANA", ""],
   rowS ["Semana 1 - 4"]]

/-- The unfragmented form of `c1hdrFragTab`. -/
def c1hdrBaseTab : Table :=
  [rowS ["Unidad n. 1: Alfa"],
   rowS ["COMPETENCIA (S):"],
   rowS ["LOGRO DE LA UNIDAD: uno"],
   rowS ["SEMANA", "TEMARIO"],
   rowS ["Semana 1 - 4"]]

/-- A well-formed two-unit table whose titles carry numbers 2 then 1. -/
def c9tab : Table :=
  [rowS ["Unidad n. 2: Beta"],
   rowS ["COMPETENCIA (S):"],
   rowS ["LOGRO DE LA UNIDAD: dos"],
   rowS ["SEMANA"],
   rowS ["Semana 5 - 8"],
   rowS ["Unidad n. 1: Alfa"],
   rowS ["COMPETENCIA (S):"],
   rowS ["LOGRO DE LA UNIDAD: uno"],
   rowS ["SEMANA"],
   rowS ["Semana 1 - 4"]]

/-- The sequence `1..k` of expected unit numbers. -/
def seqNums (k : Nat) : List Int := (List.range k).map (fun i => Int.ofNat i + 1)

/-- A concrete well-formed unit block used by witnesses. -/
def wBlk : UBlock where
  c0 := "Unidad n. 1: Alfa".toList
  c1 := "COMPETENCIA (S): x".toList
  c2 := "LOGRO DE LA UNIDAD: logro".toList
  c3 := "SEMANA".toList
  c4 := "Semana 1 - 4".toList
  r0 := []
  r1 := []
  r2 := []
  r3 := []
  r4 := []
  num := 1
  ttl := "Alfa".toList
  w1 := 1
  w2 := 4
  syl := []
  act := []
  exs := []
  bib := []

/-- First page of the segmentation counterexample: two sections. -/
def c3P1 : List Str :=
  ["I. INFORMACIÓN GENERAL", "A", "II. MISIÓN Y VISIÓN DE LA UPC",
   "B"].map String.toList
/-- Second page: a continuation line with no heading. -/
def c3P2 : List Str := ["C"].map String.toList

/-! ## Theorems -/

/-! ### Shared helper lemmas -/

/-- Stripping a literal prefix succeeds exactly on strings carrying it. -/
theorem stripPre?_eq_some : ∀ p s r : Str, stripPre? p s = some r ↔ s = p ++ r := by
  intro p
  induction p with
  | nil =>
      intro s r
      simp [stripPre?, eq_comm]
  | cons p ps ih =>
      intro s r
      cases s with
      | nil => simp [stripPre?]
      | cons c cs =>
          simp only [stripPre?, List.cons_append, List.cons.injEq]
          by_cases hpc : p = c
          · subst hpc
            simp [ih]
          · simp [hpc, Ne.symm hpc]

/-- Stripping a literal prefix off itself-plus-rest. -/
theorem stripPre?_append (p s : Str) : stripPre? p (p ++ s) = some s :=
  (stripPre?_eq_some p (p ++ s) s).mpr rfl

/-- A string starts with each of its prefixes. -/
theorem sw_append (p s : Str) : sw p (p ++ s) = true := by
  induction p with
  | nil => rfl
  | cons c cs ih => simp [sw, ih]

/-- The newline-terminated filename is the plain one plus a newline. -/
theorem buildNameNl_eq (d5 id8 n4 : Str) :
    buildNameNl d5 id8 n4 = buildName d5 id8 n4 ++ ['\n'] := by
  have hp : ".pdf".toList ++ ['\n'] = ".pdf\n".toList := by decide
  simp [buildName, buildNameNl, ← hp]

/-- Completeness of the filename match: every assembled well-formed
filename matches, with the groups recovered byte for byte. -/
theorem matchFilename_complete (d5 id8 n4 : Str) (h : GoodName d5 id8 n4) :
    matchFilename (buildName d5 id8 n4) =
      some ⟨id8, n4, d5.take 4 ++ '-' :: d5.drop 4⟩ := by
  obtain ⟨h5, hd, h8, hi, h4, hn⟩ := h
  have ht5 : List.take 5 (d5 ++ '0' :: '_' :: (id8 ++ '-' :: (n4 ++ ".pdf".toList))) = d5 := by
    rw [show (5 : Nat) = d5.length from h5.symm, List.take_left]
  have hd5 : List.drop 5 (d5 ++ '0' :: '_' :: (id8 ++ '-' :: (n4 ++ ".pdf".toList))) =
      '0' :: '_' :: (id8 ++ '-' :: (n4 ++ ".pdf".toList)) := by
    rw [show (5 : Nat) = d5.length from h5.symm, List.drop_left]
  have ht8 : List.take 8 (id8 ++ '-' :: (n4 ++ ".pdf".toList)) = id8 := by
    rw [show (8 : Nat) = id8.length from h8.symm, List.take_left]
  have hd8 : List.drop 8 (id8 ++ '-' :: (n4 ++ ".pdf".toList)) = '-' :: (n4 ++ ".pdf".toList) := by
    rw [show (8 : Nat) = id8.length from h8.symm, List.drop_left]
  have ht4 : List.take 4 (n4 ++ ".pdf".toList) = n4 := by
    rw [show (4 : Nat) = n4.length from h4.symm, List.take_left]
  have hdd4 : List.drop 4 (n4 ++ ".pdf".toList) = ".pdf".toList := by
    rw [show (4 : Nat) = n4.length from h4.symm, List.drop_left]
  unfold matchFilename buildName
  simp [ht5, hd5, ht8, hd8, ht4, hdd4, h5, h8, h4, List.all_eq_true,
    hd, hi, hn, stripPre?_append, stripPre?]
  exact ⟨hd, hi, hn⟩

/-- Completeness with the trailing newline the terminal `$` accepts. -/
theorem matchFilename_complete_nl (d5 id8 n4 : Str) (h : GoodName d5 id8 n4) :
    matchFilename (buildNameNl d5 id8 n4) =
      some ⟨id8, n4, d5.take 4 ++ '-' :: d5.drop 4⟩ := by
  obtain ⟨h5, hd, h8, hi, h4, hn⟩ := h
  have ht5 : List.take 5 (d5 ++ '0' :: '_' :: (id8 ++ '-' :: (n4 ++ ".pdf\n".toList))) = d5 := by
    rw [show (5 : Nat) = d5.length from h5.symm, List.take_left]
  have hd5 : List.drop 5 (d5 ++ '0' :: '_' :: (id8 ++ '-' :: (n4 ++ ".pdf\n".toList))) =
      '0' :: '_' :: (id8 ++ '-' :: (n4 ++ ".pdf\n".toList)) := by
    rw [show (5 : Nat) = d5.length from h5.symm, List.drop_left]
  have ht8 : List.take 8 (id8 ++ '-' :: (n4 ++ ".pdf\n".toList)) = id8 := by
    rw [show (8 : Nat) = id8.length from h8.symm, List.take_left]
  have hd8 : List.drop 8 (id8 ++ '-' :: (n4 ++ ".pdf\n".toList)) = '-' :: (n4 ++ ".pdf\n".toList) := by
    rw [show (8 : Nat) = id8.length from h8.symm, List.drop_left]
  have ht4 : List.take 4 (n4 ++ ".pdf\n".toList) = n4 := by
    rw [show (4 : Nat) = n4.length from h4.symm, List.take_left]
  have hdd4 : List.drop 4 (n4 ++ ".pdf\n".toList) = ".pdf\n".toList := by
    rw [show (4 : Nat) = n4.length from h4.symm, List.drop_left]
  unfold matchFilename buildNameNl
  simp [ht5, hd5, ht8, hd8, ht4, hdd4, h5, h8, h4, List.all_eq_true,
    hd, hi, hn, stripPre?_append, stripPre?]
  exact ⟨hd, hi, hn⟩

/-- Soundness of the filename match: a successful match decomposes the
input into the pattern with well-formed groups — with or without the one
trailing newline — and the output is built from exactly those groups. -/
theorem matchFilename_sound (s : Str) (m : CourseMetadata)
    (h : matchFilename s = some m) :
    ∃ d5 id8 n4, GoodName d5 id8 n4 ∧
      (s = buildName d5 id8 n4 ∨ s = buildName d5 id8 n4 ++ ['\n']) ∧
      m = ⟨id8, n4, d5.take 4 ++ '-' :: d5.drop 4⟩ := by
  unfold matchFilename at h
  cases h1 : stripPre? "UG-".toList s with
  | none => rw [h1] at h; simp at h
  | some r1 =>
      rw [h1] at h
      simp only [Option.bind_eq_bind, Option.some_bind] at h
      split at h
      case isFalse => simp at h
      case isTrue hc1 =>
        cases h2 : stripPre? "0_".toList (r1.drop 5) with
        | none => rw [h2] at h; simp at h
        | some r2 =>
            rw [h2] at h
            simp only [Option.some_bind] at h
            split at h
            case isFalse => simp at h
            case isTrue hc2 =>
              cases h3 : stripPre? "-".toList (r2.drop 8) with
              | none => rw [h3] at h; simp at h
              | some r3 =>
                  rw [h3] at h
                  simp only [Option.some_bind] at h
                  split at h
                  case isFalse => simp at h
                  case isTrue hc3 =>
                    split at h
                    case isFalse => simp at h
                    case isTrue hc4 =>
                      simp only [Option.some.injEq] at h
                      subst h
                      refine ⟨r1.take 5, r2.take 8, r3.take 4, ?_, ?_, rfl⟩
                      · simp only [Bool.and_eq_true, decide_eq_true_eq,
                          List.all_eq_true] at hc1 hc2 hc3
                        exact ⟨hc1.1, hc1.2, hc2.1, hc2.2, hc3.1, hc3.2⟩
                      · have e1 : s = "UG-".toList ++ r1 :=
                          (stripPre?_eq_some _ _ _).mp h1
                        have e2 : r1.drop 5 = '0' :: '_' :: r2 := by
                          have := (stripPre?_eq_some _ _ _).mp h2
                          simpa using this
                        have e3 : r2.drop 8 = '-' :: r3 := by
                          have := (stripPre?_eq_some _ _ _).mp h3
                          simpa using this
                        have e4 : r3.drop 4 = ".pdf".toList ∨
                            r3.drop 4 = ".pdf\n".toList := by
                          simpa [Bool.or_eq_true, decide_eq_true_eq]
                            using hc4
                        have hpre : ∀ tl : Str, r3.drop 4 = tl →
                            s = "UG-".toList ++ (r1.take 5 ++
                              ('0' :: '_' :: (r2.take 8 ++
                                ('-' :: (r3.take 4 ++ tl))))) := by
                          intro tl etl
                          have hr1 : r1 = r1.take 5 ++
                              ('0' :: '_' :: (r2.take 8 ++ ('-' :: (r3.take 4 ++ tl)))) := by
                            calc r1 = r1.take 5 ++ r1.drop 5 :=
                                  (List.take_append_drop 5 r1).symm
                              _ = r1.take 5 ++ ('0' :: '_' :: r2) := by rw [e2]
                              _ = r1.take 5 ++ ('0' :: '_' :: (r2.take 8 ++ r2.drop 8)) := by
                                  rw [List.take_append_drop]
                              _ = r1.take 5 ++ ('0' :: '_' :: (r2.take 8 ++ ('-' :: r3))) := by
                                  rw [e3]
                              _ = r1.take 5 ++ ('0' :: '_' :: (r2.take 8 ++ ('-' :: (r3.take 4 ++ r3.drop 4)))) := by
                                  rw [List.take_append_drop]
                              _ = r1.take 5 ++ ('0' :: '_' :: (r2.take 8 ++ ('-' :: (r3.take 4 ++ tl)))) := by
                                  rw [etl]
                          rw [e1]
                          exact congrArg (fun x => "UG-".toList ++ x) hr1
                        rcases e4 with e4 | e4
                        · left
                          rw [hpre _ e4]
                          rfl
                        · right
                          rw [hpre _ e4, ← buildNameNl_eq]
                          rfl

/-- A string starts with itself. -/
theorem sw_refl (s : Str) : sw s s = true := by
  have := sw_append s []
  simpa using this

/-- A string contains itself as a substring. -/
theorem containsStr_self (s : Str) : containsStr s s = true := by
  unfold containsStr
  simp [sw_refl]

/-- Vocabulary titles never occur inside a different vocabulary title. -/
theorem titles_cross :
    ∀ T ∈ SECTION_NAMES, ∀ S ∈ SECTION_NAMES, T ≠ S →
      containsStr T S = false := by decide

/-- A body line contains no title, in particular not the requested one. -/
theorem noTitleSub_not_contains {l S : Str} (h : noTitleSub l = true)
    (hS : S ∈ SECTION_NAMES) : containsStr l S = false := by
  unfold noTitleSub at h
  rw [List.all_eq_true] at h
  have := h S hS
  simpa using this

/-- A body line is itself not a title. -/
theorem noTitleSub_not_mem {l : Str} (h : noTitleSub l = true) :
    l ∉ SECTION_NAMES := by
  intro hl
  have := noTitleSub_not_contains h hl
  rw [containsStr_self] at this
  cases this

/-- Before the requested section starts, body lines are skipped. -/
theorem sectionPage_skip (S : Str) (hS : S ∈ SECTION_NAMES) :
    ∀ (p rest : List Str), (∀ l ∈ p, noTitleSub l = true) →
      sectionPage S false (p ++ rest) = sectionPage S false rest := by
  intro p
  induction p with
  | nil => intro rest _; rfl
  | cons l p' ih =>
      intro rest hp
      have hc : containsStr l S = false :=
        noTitleSub_not_contains (hp l (by simp)) hS
      simp only [List.cons_append, sectionPage, hc]
      simp only [Bool.false_eq_true, if_false]
      exact ih rest (fun x hx => hp x (by simp [hx]))

/-- A block of a different section is skipped entirely while the flag is
off: its title line switches nothing on and its body lines are skipped. -/
theorem sectionPage_skip_foreign (S T : Str) (hS : S ∈ SECTION_NAMES)
    (hT : T ∈ SECTION_NAMES) (hne : T ≠ S) (body rest : List Str)
    (hb : ∀ l ∈ body, noTitleSub l = true) :
    sectionPage S false ((T :: body) ++ rest) =
      sectionPage S false rest := by
  have hc : containsStr T S = false := titles_cross T hT S hS hne
  simp only [List.cons_append, sectionPage, hc]
  simp only [Bool.false_eq_true, if_false]
  exact sectionPage_skip S hS body rest hb

/-- While the flag is on, body lines are collected. -/
theorem sectionPage_collect (S : Str) (hS : S ∈ SECTION_NAMES) :
    ∀ (body rest : List Str), (∀ l ∈ body, noTitleSub l = true) →
      sectionPage S true (body ++ rest) =
        ((sectionPage S true rest).1,
         body ++ (sectionPage S true rest).2) := by
  intro body
  induction body with
  | nil => intro rest _; rfl
  | cons l b' ih =>
      intro rest hb
      have hc : containsStr l S = false :=
        noTitleSub_not_contains (hb l (by simp)) hS
      have hm : l ∉ SECTION_NAMES := noTitleSub_not_mem (hb l (by simp))
      simp only [List.cons_append, sectionPage, hc]
      simp only [Bool.false_eq_true, if_false, if_neg hm]
      simp [ih rest (fun x hx => hb x (by simp [hx]))]

/-- While the flag is on, a different title stops the page scan. -/
theorem sectionPage_stop (S T : Str) (hS : S ∈ SECTION_NAMES)
    (hT : T ∈ SECTION_NAMES) (hne : T ≠ S) (rs : List Str) :
    sectionPage S true (T :: rs) = (true, []) := by
  have hc : containsStr T S = false := titles_cross T hT S hS hne
  simp [sectionPage, hc, hT]

/-- With the flag on at a block boundary, the scan stops immediately:
either the page is exhausted or the next block's (different) title breaks. -/
theorem sectionPage_true_next (S : Str) (hS : S ∈ SECTION_NAMES)
    (bs' : List SBlock)
    (hw' : ∀ x ∈ bs', x.1 ∈ SECTION_NAMES ∧ ∀ l ∈ x.2, noTitleSub l = true)
    (hSn : S ∉ bs'.map Prod.fst) :
    sectionPage S true (flattenSB bs') = (true, []) := by
  cases bs' with
  | nil => rfl
  | cons b2 bs2 =>
      have hT2 : b2.1 ∈ SECTION_NAMES := (hw' b2 (by simp)).1
      have hne : b2.1 ≠ S := by
        intro he
        exact hSn (by simp [← he])
      have hfl : flattenSB (b2 :: bs2) = b2.1 :: (b2.2 ++ flattenSB bs2) := by
        simp [flattenSB]
      rw [hfl]
      exact sectionPage_stop S b2.1 hS hT2 hne _

/-- Single-page segmentation: after a cover block, each body line of a
well-formed page belongs to exactly the section whose title heads its
block.  Stated over the scan with the flag off. -/
theorem sectionPage_blocks (S : Str) (hS : S ∈ SECTION_NAMES) :
    ∀ (bs : List SBlock),
      (∀ b ∈ bs, b.1 ∈ SECTION_NAMES ∧ ∀ l ∈ b.2, noTitleSub l = true) →
      (bs.map Prod.fst).Nodup →
      ((∀ body, (S, body) ∈ bs →
          (sectionPage S false (flattenSB bs)).2 = body) ∧
       (S ∉ bs.map Prod.fst →
          (sectionPage S false (flattenSB bs)).2 = [])) := by
  intro bs
  induction bs with
  | nil =>
      intro _ _
      exact ⟨fun body hb => absurd hb (by simp), fun _ => rfl⟩
  | cons b bs' ih =>
      intro hw hnd
      have hT : b.1 ∈ SECTION_NAMES := (hw b (by simp)).1
      have hbd : ∀ l ∈ b.2, noTitleSub l = true := (hw b (by simp)).2
      have hw' : ∀ x ∈ bs', x.1 ∈ SECTION_NAMES ∧
          ∀ l ∈ x.2, noTitleSub l = true :=
        fun x hx => hw x (by simp [hx])
      have hnd' : (bs'.map Prod.fst).Nodup := (List.nodup_cons.mp hnd).2
      have hTn : b.1 ∉ bs'.map Prod.fst := (List.nodup_cons.mp hnd).1
      have hfl : flattenSB (b :: bs') = b.1 :: (b.2 ++ flattenSB bs') := by
        simp [flattenSB]
      by_cases hTS : b.1 = S
      · have hown : (sectionPage S false (flattenSB (b :: bs'))).2 = b.2 := by
          have hc : containsStr b.1 S = true := by
            rw [hTS]; exact containsStr_self S
          rw [hfl]
          simp only [sectionPage, hc, if_true]
          rw [sectionPage_collect S hS b.2 (flattenSB bs') hbd,
            sectionPage_true_next S hS bs' hw' (hTS ▸ hTn)]
          simp
        constructor
        · intro body hb
          rcases List.mem_cons.mp hb with hhead | htail
          · have hbody : b.2 = body := by
              rw [← hhead]
            rw [hown, hbody]
          · exfalso
            apply hTS ▸ hTn
            exact List.mem_map.mpr ⟨(S, body), htail, rfl⟩
        · intro hnm
          exfalso
          exact hnm (by simp [hTS])
      · have hskip : sectionPage S false (flattenSB (b :: bs')) =
            sectionPage S false (flattenSB bs') := by
          have := sectionPage_skip_foreign S b.1 hS hT hTS b.2
            (flattenSB bs') hbd
          rw [hfl]
          simpa using this
        constructor
        · intro body hb
          rcases List.mem_cons.mp hb with hhead | htail
          · exfalso
            apply hTS
            rw [← hhead]
          · rw [hskip]
            exact (ih hw' hnd').1 body htail
        · intro hnm
          have hnm' : S ∉ bs'.map Prod.fst := by
            intro hx
            exact hnm (by simp [hx])
          rw [hskip]
          exact (ih hw' hnd').2 hnm'

/-- C3 counterexample: on a two-page document the `break` that ends a
page scan leaves `in_section` set, so the continuation line `C` of the
second page is attributed BOTH to section I (whose collection resumed
after the in-page break at the title of section II) and to section II —
one non-title line lands in two sections. -/
theorem c3_counterexample :
    "C".toList ∈ getSectionLines "I. INFORMACIÓN GENERAL".toList [c3P1, c3P2] ∧
    "C".toList ∈ getSectionLines "II. MISIÓN Y VISIÓN DE LA UPC".toList [c3P1, c3P2] ∧
    "I. INFORMACIÓN GENERAL".toList ≠ "II. MISIÓN Y VISIÓN DE LA UPC".toList ∧
    "I. INFORMACIÓN GENERAL".toList ∈ SECTION_NAMES ∧
    "II. MISIÓN Y VISIÓN DE LA UPC".toList ∈ SECTION_NAMES ∧
    "C".toList ∉ SECTION_NAMES := by
  refine ⟨by decide, by decide, by decide, by decide, by decide, by decide⟩

/-- C3 amended: the exactly-once attribution holds for single-page
documents whose lines are a cover block followed by title blocks — each
title heading at most one block and every body/cover line free of title
substrings (the switch tests substring containment, not exact equality):
the text of section S is then exactly the body of S's block, and empty
when S heads no block.  Across pages the property fails (see the
counterexample): the in-page `break` leaves the flag set and collection
resumes on the next page. -/
theorem c3_amended
    (pre : List Str) (bs : List SBlock) (S : Str)
    (hpre : ∀ l ∈ pre, noTitleSub l = true)
    (hbs : ∀ b ∈ bs, b.1 ∈ SECTION_NAMES ∧ ∀ l ∈ b.2, noTitleSub l = true)
    (hnd : (bs.map Prod.fst).Nodup)
    (hS : S ∈ SECTION_NAMES) :
    (∀ body, (S, body) ∈ bs →
        get_section S [pre ++ flattenSB bs] = .ok body) ∧
    (S ∉ bs.map Prod.fst →
        get_section S [pre ++ flattenSB bs] = .ok []) := by
  have hpage : getSectionLines S [pre ++ flattenSB bs] =
      (sectionPage S false (pre ++ flattenSB bs)).2 := by
    simp [getSectionLines]
  have hskip : sectionPage S false (pre ++ flattenSB bs) =
      sectionPage S false (flattenSB bs) :=
    sectionPage_skip S hS pre (flattenSB bs) hpre
  have hmain := sectionPage_blocks S hS bs hbs hnd
  constructor
  · intro body hb
    unfold get_section
    rw [if_pos hS, hpage, hskip, hmain.1 body hb]
  · intro hnm
    unfold get_section
    rw [if_pos hS, hpage, hskip, hmain.2 hnm]

/-- C3 amended, witness: a concrete two-block single page. -/
theorem c3_amended_witness :
    get_section "I. INFORMACIÓN GENERAL".toList
      [["Sílabo de Curso".toList] ++
        flattenSB [("I. INFORMACIÓN GENERAL".toList, ["A".toList]),
                   ("III. INTRODUCCIÓN".toList, ["B".toList])]] =
      .ok ["A".toList] := by
  exact (c3_amended ["Sílabo de Curso".toList]
    [("I. INFORMACIÓN GENERAL".toList, ["A".toList]),
     ("III. INTRODUCCIÓN".toList, ["B".toList])]
    "I. INFORMACIÓN GENERAL".toList
    (by decide) (by decide) (by decide) (by decide)).1
    ["A".toList] (by simp)

/-- C5 counterexample: the filename with subterm digit `1` matches the
pattern the claim states (5-digit period, ANY 1-digit subterm, 8-char
alphanumeric id, 4-digit nrc), yet the parser raises the
unrecognized-filename failure: the source pattern requires the subterm
digit to be literally `0`. -/
theorem c5_counterexample :
    matchesClaimPattern "UG-202521_1AEL0244-8281.pdf".toList = true ∧
    parse_metadata "UG-202521_1AEL0244-8281.pdf".toList =
      .error "Invalid filename format" := by
  exact ⟨by decide, by decide⟩

/-- C5 amended: for every filename of shape
`UG-<5-digit-period>0_<8-char-id>-<4-digit-nrc>.pdf` — subterm digit
literally `0`, id over the class `[A-Z0-9_-]` — with or without the one
trailing newline that the terminal `$` of a Python pattern also accepts,
the parser recovers `(course_id, nrc, period)` byte for byte from the
groups, with the period formatted as the first four period digits, a
dash, and the remaining digit; every other string yields the distinct
unrecognized-filename failure, never a partial result. -/
theorem c5_amended :
    (∀ d5 id8 n4, GoodName d5 id8 n4 →
        parse_metadata (buildName d5 id8 n4) =
          .ok ⟨id8, n4, d5.take 4 ++ '-' :: d5.drop 4⟩) ∧
    (∀ d5 id8 n4, GoodName d5 id8 n4 →
        parse_metadata (buildName d5 id8 n4 ++ ['\n']) =
          .ok ⟨id8, n4, d5.take 4 ++ '-' :: d5.drop 4⟩) ∧
    (∀ s m, parse_metadata s = .ok m →
        ∃ d5 id8 n4, GoodName d5 id8 n4 ∧
          (s = buildName d5 id8 n4 ∨ s = buildName d5 id8 n4 ++ ['\n']) ∧
          m = ⟨id8, n4, d5.take 4 ++ '-' :: d5.drop 4⟩) ∧
    (∀ s, (∀ d5 id8 n4, GoodName d5 id8 n4 →
            s ≠ buildName d5 id8 n4 ∧ s ≠ buildName d5 id8 n4 ++ ['\n']) →
        parse_metadata s = .error "Invalid filename format") := by
  refine ⟨?_, ?_, ?_, ?_⟩
  · intro d5 id8 n4 h
    simp [parse_metadata, matchFilename_complete d5 id8 n4 h]
  · intro d5 id8 n4 h
    rw [← buildNameNl_eq]
    simp [parse_metadata, matchFilename_complete_nl d5 id8 n4 h]
  · intro s m h
    unfold parse_metadata at h
    cases hm : matchFilename s with
    | none => rw [hm] at h; cases h
    | some m' =>
        rw [hm] at h
        cases h
        exact matchFilename_sound s _ hm
  · intro s hs
    unfold parse_metadata
    cases hm : matchFilename s with
    | none => rfl
    | some m' =>
        obtain ⟨d5, id8, n4, hg, he, _⟩ := matchFilename_sound s m' hm
        rcases he with he | he
        · exact absurd he (hs d5 id8 n4 hg).1
        · exact absurd he (hs d5 id8 n4 hg).2

/-- C5 amended, witness: the canonical filename. -/
theorem c5_amended_witness :
    GoodName "20252".toList "1AEL0244".toList "8281".toList ∧
    parse_metadata (buildName "20252".toList "1AEL0244".toList "8281".toList) =
      .ok ⟨"1AEL0244".toList, "8281".toList, "2025-2".toList⟩ := by
  have hg : GoodName "20252".toList "1AEL0244".toList "8281".toList := by
    refine ⟨by decide, by decide, by decide, by decide, by decide, by decide⟩
  refine ⟨hg, ?_⟩
  exact (c5_amended.1 _ _ _ hg).trans (by decide)

/-- C10: calling the week-to-date resolver with end week `0` is treated as
if no end week were given — the `w1 > w2` validation is skipped (no
failure even though `w1 > 0 = w2`) and the returned end date is the start
date plus 5 days instead of an `end_date`-anchored date. -/
theorem c10_week2_zero_is_default (s e w1 : Int) :
    weeks_to_dates s e w1 (some 0) = weeks_to_dates s e w1 none ∧
    weeks_to_dates s e w1 (some 0) =
      .ok (s + 7 * (w1 - 1), s + 7 * (w1 - 1) + 5) := by
  constructor <;> simp [weeks_to_dates]

/-- C6 counterexample: the call with `w1 = 2 > 0 = w2` does NOT signal a
range-validation failure — it succeeds with the default 6-day end date
(taking the configured dates `start_date = 100`, `end_date = 200`). -/
theorem c6_counterexample :
    (2 : Int) > 0 ∧ weeks_to_dates 100 200 2 (some 0) = .ok (107, 112) := by
  exact ⟨by decide, by decide⟩

/-- C6 amended: single weeks map to `start_date + (w1-1) weeks` with a
5-day default end; a range `(w1, w2)` with `w2 ≠ 0` maps to
`(start_date + (w1-1) weeks, end_date + (w2-1) weeks)`; `w1 > w2` with
`w2 ≠ 0` (Python-truthy) signals the range-validation failure;
`w1 = w2 ≠ 0` is accepted; the call `(1, 16)` on a configured period
yields the period start date and the period end date plus 15 weeks.
(With `w2 = 0` the validation is skipped — see the counterexample
and C10.) -/
theorem c6_amended :
    (∀ s e w1 w2 : Int, w2 ≠ 0 → w1 > w2 →
        weeks_to_dates s e w1 (some w2) = .error "Rango de semanas invalido") ∧
    (∀ s e w : Int, w ≠ 0 →
        weeks_to_dates s e w (some w) =
          .ok (s + 7 * (w - 1), e + 7 * (w - 1))) ∧
    (∀ s e w1 w2 : Int, w2 ≠ 0 → w1 ≤ w2 →
        weeks_to_dates s e w1 (some w2) =
          .ok (s + 7 * (w1 - 1), e + 7 * (w2 - 1))) ∧
    (∀ s e w1 : Int, weeks_to_dates s e w1 none =
        .ok (s + 7 * (w1 - 1), s + 7 * (w1 - 1) + 5)) ∧
    (∀ s e : Int, weeks_to_dates s e 1 (some 16) = .ok (s, e + 105)) := by
  refine ⟨?_, ?_, ?_, ?_, ?_⟩
  · intro s e w1 w2 h2 h12
    simp [weeks_to_dates, h2, h12]
  · intro s e w h
    simp [weeks_to_dates, h]
  · intro s e w1 w2 h2 h12
    have hng : ¬ (w1 > w2) := by omega
    simp [weeks_to_dates, h2, hng]
  · intro s e w1
    simp [weeks_to_dates]
  · intro s e
    simp [weeks_to_dates]

/-- C6 amended, witness: the failure branch at `w1 = 3 > 2 = w2`. -/
theorem c6_amended_witness :
    weeks_to_dates 0 0 3 (some 2) = .error "Rango de semanas invalido" :=
  c6_amended.1 0 0 3 2 (by decide) (by decide)

/-- C7: the assembler never raises on an identity mismatch (the embedding
is a total function); the emitted course always carries the
content-derived id and NRC; each mismatch emits a warning carrying both
the content-derived and the filename-derived value. -/
theorem c7_content_wins :
    ∀ (parsed : ParsedInfo) (fid fnrc : Str) (us : List CUnit)
      (xs : List Assessment),
      ((course_from_raw parsed fid fnrc us xs).1.id = parsed.id) ∧
      ((course_from_raw parsed fid fnrc us xs).1.nrc = parsed.nrc) ∧
      (parsed.id ≠ fid →
        MismatchWarning.idMismatch parsed.id fid ∈
          (course_from_raw parsed fid fnrc us xs).2) ∧
      (pyStrOfOptInt parsed.nrc ≠ fnrc →
        MismatchWarning.nrcMismatch parsed.nrc fnrc ∈
          (course_from_raw parsed fid fnrc us xs).2) := by
  intro parsed fid fnrc us xs
  refine ⟨rfl, rfl, ?_, ?_⟩
  · intro h
    simp [course_from_raw, h]
  · intro h
    simp [course_from_raw, h]

/-- C7 witness: a concrete mismatching document. -/
theorem c7_content_wins_witness :
    ("1AEL0244".toList ≠ "XXXX0000".toList) ∧
    ((course_from_raw
        ⟨"1AEL0244".toList, [], [], [], none, none, [], some 8281⟩
        "XXXX0000".toList "9999".toList ([] : List CUnit)
        ([] : List Assessment)).1.id = "1AEL0244".toList) ∧
    (MismatchWarning.idMismatch "1AEL0244".toList "XXXX0000".toList ∈
      (course_from_raw
        ⟨"1AEL0244".toList, [], [], [], none, none, [], some 8281⟩
        "XXXX0000".toList "9999".toList ([] : List CUnit)
        ([] : List Assessment)).2) := by
  refine ⟨by decide, ?_, ?_⟩
  · exact (c7_content_wins
      ⟨"1AEL0244".toList, [], [], [], none, none, [], some 8281⟩
      "XXXX0000".toList "9999".toList [] []).1
  · exact (c7_content_wins
      ⟨"1AEL0244".toList, [], [], [], none, none, [], some 8281⟩
      "XXXX0000".toList "9999".toList [] []).2.2.1 (by decide)

/-- C8 counterexample: in the script-draft `transform`, one failing
document aborts the transformation of every later document — the third
document succeeds yet is absent from the output. -/
theorem c8_counterexample :
    transform [Except.ok 1, Except.error "parse failure", Except.ok 2] =
      [1] ∧
    Except.ok 2 ∈
      [Except.ok (1 : Nat), Except.error "parse failure", Except.ok 2] ∧
    (2 : Nat) ∉
      transform [Except.ok 1, Except.error "parse failure", Except.ok 2] := by
  refine ⟨rfl, by decide, by decide⟩

/-- C8 amended: in the pipeline orchestrator (`process_syllabus` /
`process_directory`) a per-document failure aborts only that document —
every other document is still emitted; in the script draft `transform`
the `try` wraps the whole loop, so the first failing document ends the
batch transformation, keeping only the documents before it. -/
theorem c8_amended {γ : Type} :
    (∀ (pre : List γ) (e : String) (rest : List (Except String γ)),
        process_directory (pre.map Except.ok ++ Except.error e :: rest) =
          pre ++ process_directory rest) ∧
    (∀ (pre : List γ) (e : String) (rest : List (Except String γ)),
        transform (pre.map Except.ok ++ Except.error e :: rest) = pre) := by
  constructor
  · intro pre e rest
    induction pre with
    | nil => simp [process_directory, process_syllabus]
    | cons c cs ih =>
        simp only [List.map_cons, List.cons_append, process_directory,
          List.filterMap_cons, process_syllabus] at ih ⊢
        simp [ih]
  · intro pre e rest
    induction pre with
    | nil => simp [transform]
    | cons c cs ih => simp [transform, ih]

/-- C4 counterexample: the unaccented affirmative `Si` — the claim says
the recoverability cell matching `si` case-insensitively yields
`is_recoverable = true`, but the code only searches for the accented
`sí`, so the row parses with `is_recoverable = false`. -/
theorem c4_counterexample :
    containsStr (pyLower (siRow.getD 5 [])) "si".toList = true ∧
    (parse_assessments_from_table [siRow]).map (·.is_recoverable) =
      [false] := by
  exact ⟨by decide, by decide⟩

/-- C4 amended: header rows are skipped; the example row parses as the
claim states; a first cell without a dash yields an empty code; a
non-integer week cell drops the row and processing continues with the
rest of the table; a non-float weight cell (after stripping trailing
percent signs) keeps the row with weight 0; and `is_recoverable` is true
iff the observation cell, lowercased, contains the accented `sí` (the
unaccented `si` is NOT recognised). -/
theorem c4_amended :
    (∀ t, parse_assessments_from_table (assessHeader :: t) =
        parse_assessments_from_table t) ∧
    (parse_assessments_from_table [exRow] =
      [⟨"Examen Parcial".toList, "EP1".toList, 20, 8, false⟩]) ∧
    (∀ s : Str, '-' ∉ s → splitFirstDash s = (s, [])) ∧
    (∀ (x1 x2 x3 x4 x5 x6 : Str) (t : Table),
        [x1, x2, x3, x4, x5, x6] ≠ assessHeader →
        (∀ v, pyInt (strip (nlToSpace x4)) ≠ .ok v) →
        parse_assessments_from_table ([x1, x2, x3, x4, x5, x6] :: t) =
          parse_assessments_from_table t) ∧
    (∀ (x1 x2 x3 x4 x5 x6 : Str) (t : Table) (w : Int),
        [x1, x2, x3, x4, x5, x6] ≠ assessHeader →
        pyInt (strip (nlToSpace x4)) = .ok w →
        (∀ q, pyFloat (rstripPct (strip (nlToSpace x3))) ≠ .ok q) →
        parse_assessments_from_table ([x1, x2, x3, x4, x5, x6] :: t) =
          ⟨(splitFirstDash (strip (nlToSpace x1))).1,
           strip (splitFirstDash (strip (nlToSpace x1))).2, 0, w,
           containsStr (pyLower (strip (nlToSpace x6))) "sí".toList⟩ ::
            parse_assessments_from_table t) := by
  refine ⟨?_, by decide, ?_, ?_, ?_⟩
  · intro t
    simp [parse_assessments_from_table, parseAssessmentRow]
  · intro s h
    induction s with
    | nil => rfl
    | cons c cs ih =>
        simp only [List.mem_cons, not_or] at h
        simp [splitFirstDash, Ne.symm h.1, ih h.2]
  · intro x1 x2 x3 x4 x5 x6 t hh hw
    cases hy : pyInt (strip (nlToSpace x4)) with
    | ok v => exact absurd hy (hw v)
    | error m =>
        simp [parse_assessments_from_table, parseAssessmentRow, hh,
          List.getD, hy]
  · intro x1 x2 x3 x4 x5 x6 t w hh hw hq
    cases hy : pyFloat (rstripPct (strip (nlToSpace x3))) with
    | ok q => exact absurd hy (hq q)
    | error m =>
        simp [parse_assessments_from_table, parseAssessmentRow, hh,
          List.getD, hw, hy]

/-- C4 amended, witness: the week cell `ocho` drops the row. -/
theorem c4_amended_witness :
    parse_assessments_from_table [ochoRow] =
      parse_assessments_from_table [] := by
  exact c4_amended.2.2.2.1 "Tarea-TB1".toList "C1".toList "20%".toList
    "ocho".toList "".toList "No".toList [] (by decide)
    (by
      intro v hv
      rw [(by decide : pyInt (strip (nlToSpace "ocho".toList)) =
        Except.error "invalid literal for int")] at hv
      cases hv)

/-! ### Unit-table reconstruction lemmas -/

/-- Bind of a Python-exception success. -/
theorem ebind_ok {α β : Type} (a : α) (f : α → Except String β) :
    (Except.ok a >>= f) = f a := rfl

/-- Bind of a Python-exception failure. -/
theorem ebind_err {α β : Type} (m : String) (f : α → Except String β) :
    ((Except.error m : Except String α) >>= f) = .error m := rfl

/-- In the tail merge loop, a row carrying the title marker sends the scan
back to the competency check of the next block, consuming the row. -/
theorem cleanAux_tail_title (done : Table) (c : Str) (r : Row) (rs : Table)
    (h : sw swTitle c = true) :
    cleanAux .tail done ((c :: r) :: rs) =
      cleanAux .comp ((c :: r) :: done) rs := by
  simp [cleanAux, h]

/-- One well-formed block after its title row: the competency, achievement,
header and week rows are consumed in order. -/
theorem cleanAux_block (b : UBlock) (hb : b.Marks) (done rest : Table) :
    cleanAux .comp done ((b.c1 :: b.r1) :: (b.c2 :: b.r2) ::
        (b.c3 :: b.r3) :: (b.c4 :: b.r4) :: rest) =
      cleanAux .tail ((b.c4 :: b.r4) :: (b.c3 :: b.r3) ::
        (b.c2 :: b.r2) :: (b.c1 :: b.r1) :: done) rest := by
  simp [cleanAux, hb.h1, hb.h2, hb.h3, hb.h4]

/-- The tail scan runs unchanged over a sequence of well-formed blocks,
moving them onto the processed side, as long as what follows is empty or
starts a new block. -/
theorem cleanAux_tail_chain :
    ∀ (bs : List UBlock), (∀ x ∈ bs, x.Marks) → ∀ (done rest : Table),
      (rest = [] ∨ ∃ c r rs, rest = (c :: r) :: rs ∧ sw swTitle c = true) →
      cleanAux .tail done (blocksRows bs ++ rest) =
        cleanAux .tail ((blocksRows bs).reverse ++ done) rest := by
  intro bs
  induction bs with
  | nil =>
      intro _ done rest _
      simp [blocksRows]
  | cons b bs' ih =>
      intro hm done rest hr
      have hb : b.Marks := hm b (by simp)
      have hbs' : ∀ x ∈ bs', x.Marks := fun x hx => hm x (by simp [hx])
      have hexp : blocksRows (b :: bs') ++ rest =
          (b.c0 :: b.r0) :: (b.c1 :: b.r1) :: (b.c2 :: b.r2) ::
            (b.c3 :: b.r3) :: (b.c4 :: b.r4) :: (blocksRows bs' ++ rest) := by
        simp [blocksRows, UBlock.rows]
      rw [hexp, cleanAux_tail_title _ _ _ _ hb.h0, cleanAux_block b hb,
        ih hbs' _ rest hr]
      congr 1
      simp [blocksRows, UBlock.rows]

/-- Entering `clean_table_structure` on block rows followed by a block
boundary behaves as the tail scan started with those rows processed. -/
theorem clean_entry_chain (bs : List UBlock) (hm : ∀ x ∈ bs, x.Marks)
    (rest : Table)
    (hr : rest = [] ∨ ∃ c r rs, rest = (c :: r) :: rs ∧ sw swTitle c = true) :
    clean_table_structure (blocksRows bs ++ rest) =
      cleanAux .tail (blocksRows bs).reverse rest := by
  cases bs with
  | nil =>
      rcases hr with hre | ⟨c, r, rs, hre, hc⟩
      · subst hre; rfl
      · subst hre
        simp [blocksRows, clean_table_structure, hc, cleanAux_tail_title, hc]
  | cons b bs' =>
      have hb : b.Marks := hm b (by simp)
      have hbs' : ∀ x ∈ bs', x.Marks := fun x hx => hm x (by simp [hx])
      have hexp : blocksRows (b :: bs') ++ rest =
          (b.c0 :: b.r0) :: ((b.c1 :: b.r1) :: (b.c2 :: b.r2) ::
            (b.c3 :: b.r3) :: (b.c4 :: b.r4) :: (blocksRows bs' ++ rest)) := by
        simp [blocksRows, UBlock.rows]
      rw [hexp]
      simp only [clean_table_structure, hb.h0, if_true]
      rw [cleanAux_block b hb, cleanAux_tail_chain bs' hbs' _ rest hr]
      congr 1
      simp [blocksRows, UBlock.rows]

/-- The tail scan over well-formed blocks with nothing following returns
the processed rows followed by those blocks. -/
theorem cleanAux_tail_end (bs : List UBlock) (hm : ∀ x ∈ bs, x.Marks)
    (done : Table) :
    cleanAux .tail done (blocksRows bs) = .ok (done.reverse ++ blocksRows bs) := by
  have h := cleanAux_tail_chain bs hm done [] (Or.inl rfl)
  rw [List.append_nil] at h
  rw [h]
  show Except.ok ((blocksRows bs).reverse ++ done).reverse = _
  simp

/-- Cleaning a table of well-formed blocks, with one block's post-title
rows replaced by any row sequence `Mtail` that the competency-phase scan
repairs into exactly that block's rows, yields the unfragmented table. -/
theorem clean_mid (bs1 bs2 : List UBlock) (b : UBlock) (Mtail : Table)
    (hm1 : ∀ x ∈ bs1, x.Marks) (hm2 : ∀ x ∈ bs2, x.Marks) (hb : b.Marks)
    (HM : ∀ (done rest' : Table),
      cleanAux .comp done (Mtail ++ rest') =
        cleanAux .tail ((b.c4 :: b.r4) :: (b.c3 :: b.r3) ::
          (b.c2 :: b.r2) :: (b.c1 :: b.r1) :: done) rest') :
    clean_table_structure
        (blocksRows bs1 ++ ((b.c0 :: b.r0) :: Mtail) ++ blocksRows bs2) =
      .ok (blocksRows (bs1 ++ b :: bs2)) := by
  have hre : ((b.c0 :: b.r0) :: Mtail) ++ blocksRows bs2 = [] ∨
      ∃ c r rs, ((b.c0 :: b.r0) :: Mtail) ++ blocksRows bs2 = (c :: r) :: rs ∧
        sw swTitle c = true := by
    right
    exact ⟨b.c0, b.r0, Mtail ++ blocksRows bs2, by simp, hb.h0⟩
  rw [show blocksRows bs1 ++ ((b.c0 :: b.r0) :: Mtail) ++ blocksRows bs2 =
      blocksRows bs1 ++ (((b.c0 :: b.r0) :: Mtail) ++ blocksRows bs2) by
    simp]
  rw [clean_entry_chain bs1 hm1 _ hre]
  rw [show ((b.c0 :: b.r0) :: Mtail) ++ blocksRows bs2 =
      (b.c0 :: b.r0) :: (Mtail ++ blocksRows bs2) by simp]
  rw [cleanAux_tail_title _ _ _ _ hb.h0, HM, cleanAux_tail_end bs2 hm2 _]
  simp [blocksRows, UBlock.rows, List.reverse_append]

/-- Parsing block rows followed by any remainder: the well-formed blocks
parse to their units and the remainder is parsed afterwards. -/
theorem parseBlocks_append :
    ∀ (bs : List UBlock), (∀ x ∈ bs, x.OK) → ∀ (T : Table),
      parseBlocks (blocksRows bs ++ T) =
        (parseBlocks T).map (fun us => bs.map UBlock.unit ++ us) := by
  intro bs
  induction bs with
  | nil =>
      intro _ T
      cases h : parseBlocks T <;> simp [blocksRows, Except.map, h]
  | cons b bs' ih =>
      intro hok T
      have hb : b.OK := hok b (by simp)
      have h' : ∀ x ∈ bs', x.OK := fun x hx => hok x (by simp [hx])
      have hexp : blocksRows (b :: bs') ++ T =
          (b.c0 :: b.r0) :: (b.c1 :: b.r1) :: (b.c2 :: b.r2) ::
            (b.c3 :: b.r3) :: (b.c4 :: b.r4) :: (blocksRows bs' ++ T) := by
        simp [blocksRows, UBlock.rows]
      rw [hexp]
      simp only [parseBlocks, cell0, ebind_ok, hb.ht, hb.hw, ih h' T]
      cases h : parseBlocks T <;>
        simp [Except.map, h, UBlock.unit, ebind_ok, ebind_err]

/-- Parsing exactly the rows of well-formed blocks yields their units. -/
theorem parseBlocks_blocks (bs : List UBlock) (hok : ∀ x ∈ bs, x.OK) :
    parseBlocks (blocksRows bs) = .ok (bs.map UBlock.unit) := by
  have := parseBlocks_append bs hok []
  simpa [parseBlocks, Except.map] using this

/-- The full reconstructor on a table of well-formed blocks. -/
theorem parse_units_blocks (bs : List UBlock) (hok : ∀ x ∈ bs, x.OK) :
    parse_units_from_table (blocksRows bs) = .ok (bs.map UBlock.unit) := by
  cases bs with
  | nil => rfl
  | cons b bs' =>
      have hm : ∀ x ∈ b :: bs', x.Marks := fun x hx => (hok x hx).marks
      have hne : blocksRows (b :: bs') ≠ [] := by
        simp [blocksRows, UBlock.rows]
      unfold parse_units_from_table
      rw [if_neg hne]
      have hc : clean_table_structure (blocksRows (b :: bs')) =
          .ok (blocksRows (b :: bs')) := by
        have := clean_mid [] bs' b
          ((b.c1 :: b.r1) :: (b.c2 :: b.r2) :: (b.c3 :: b.r3) ::
            (b.c4 :: b.r4) :: [])
          (by simp) (fun x hx => (hok x (by simp [hx])).marks)
          (hok b (by simp)).marks
          (fun done rest' => by
            exact cleanAux_block b (hok b (by simp)).marks done rest')
        simpa [blocksRows, UBlock.rows] using this
      rw [hc]
      rw [ebind_ok]
      simpa using parseBlocks_blocks (b :: bs') hok

/-- Fragmented competency row: the first fragment carries the competency
marker and the second does not look like an achievement row, so the scan
merges the second into the first; when the merge rebuilds the competency
row, the cleaned block is the unfragmented one. -/
theorem cleanAux_block_fragComp (b : UBlock) (hb : b.Marks)
    (g0 g1 : Str) (t0 t1 : Row)
    (h0 : sw swComp g0 = true) (h1 : sw swLogro g1 = false)
    (hj : joinRows (g0 :: t0) (g1 :: t1) = b.c1 :: b.r1)
    (done rest : Table) :
    cleanAux .comp done ((g0 :: t0) :: (g1 :: t1) :: (b.c2 :: b.r2) ::
        (b.c3 :: b.r3) :: (b.c4 :: b.r4) :: rest) =
      cleanAux .tail ((b.c4 :: b.r4) :: (b.c3 :: b.r3) ::
        (b.c2 :: b.r2) :: (b.c1 :: b.r1) :: done) rest := by
  simp [cleanAux, h0, h1, hj, hb.h2, hb.h3, hb.h4]

/-- Fragmented achievement row: analogous, merged in the header-seeking
loop. -/
theorem cleanAux_block_fragLogro (b : UBlock) (hb : b.Marks)
    (g0 g1 : Str) (t0 t1 : Row)
    (h0 : sw swLogro g0 = true) (h1 : sw swHdr g1 = false)
    (hj : joinRows (g0 :: t0) (g1 :: t1) = b.c2 :: b.r2)
    (done rest : Table) :
    cleanAux .comp done ((b.c1 :: b.r1) :: (g0 :: t0) :: (g1 :: t1) ::
        (b.c3 :: b.r3) :: (b.c4 :: b.r4) :: rest) =
      cleanAux .tail ((b.c4 :: b.r4) :: (b.c3 :: b.r3) ::
        (b.c2 :: b.r2) :: (b.c1 :: b.r1) :: done) rest := by
  simp [cleanAux, hb.h1, h0, h1, hj, hb.h3, hb.h4]

/-- Fragmented week data row: analogous, merged in the tail loop. -/
theorem cleanAux_block_fragWeek (b : UBlock) (hb : b.Marks)
    (g0 g1 : Str) (t0 t1 : Row)
    (h0 : sw swWeek g0 = true) (h1 : sw swTitle g1 = false)
    (hj : joinRows (g0 :: t0) (g1 :: t1) = b.c4 :: b.r4)
    (done rest : Table) :
    cleanAux .comp done ((b.c1 :: b.r1) :: (b.c2 :: b.r2) ::
        (b.c3 :: b.r3) :: (g0 :: t0) :: (g1 :: t1) :: rest) =
      cleanAux .tail ((b.c4 :: b.r4) :: (b.c3 :: b.r3) ::
        (b.c2 :: b.r2) :: (b.c1 :: b.r1) :: done) rest := by
  simp [cleanAux, hb.h1, hb.h2, hb.h3, h0, h1, hj]

/-- Replacing one block's post-title rows by any sequence the scan repairs
into that block leaves the parsed units unchanged. -/
theorem parse_units_mid (bs1 bs2 : List UBlock) (b : UBlock) (Mtail : Table)
    (hok1 : ∀ x ∈ bs1, x.OK) (hok2 : ∀ x ∈ bs2, x.OK) (hbOK : b.OK)
    (HM : ∀ (done rest' : Table),
      cleanAux .comp done (Mtail ++ rest') =
        cleanAux .tail ((b.c4 :: b.r4) :: (b.c3 :: b.r3) ::
          (b.c2 :: b.r2) :: (b.c1 :: b.r1) :: done) rest') :
    parse_units_from_table
        (blocksRows bs1 ++ ((b.c0 :: b.r0) :: Mtail) ++ blocksRows bs2) =
      parse_units_from_table (blocksRows (bs1 ++ b :: bs2)) := by
  have hok : ∀ x ∈ bs1 ++ b :: bs2, x.OK := by
    intro x hx
    rcases List.mem_append.mp hx with h | h
    · exact hok1 x h
    · rcases List.mem_cons.mp h with h | h
      · subst h; exact hbOK
      · exact hok2 x h
  have hclean := clean_mid bs1 bs2 b Mtail
    (fun x hx => (hok1 x hx).marks) (fun x hx => (hok2 x hx).marks)
    hbOK.marks HM
  have hne : blocksRows bs1 ++ ((b.c0 :: b.r0) :: Mtail) ++ blocksRows bs2 ≠
      [] := by simp
  rw [parse_units_blocks (bs1 ++ b :: bs2) hok]
  unfold parse_units_from_table
  rw [if_neg hne, hclean, ebind_ok]
  exact parseBlocks_blocks _ hok

/-- C1 counterexample: fragmenting the TITLE row (a pure line wrap — the
cell-wise merge reconstructs the unfragmented row) does NOT yield the
same parsed units: the second fragment is inspected at the competency
position and the reconstructor raises, while the unfragmented table
parses to its one unit. -/
theorem c1_counterexample :
    joinRows c1r0a c1r0b = c1row0 ∧
    okB (parse_units_from_table c1frag) = false ∧
    parse_units_from_table c1base =
      .ok [⟨1, "Alfa Beta".toList, "logro uno".toList, (1, 4),
            ["a".toList, "b".toList], []⟩] := by
  refine ⟨by decide, by decide, by decide⟩

/-- C1 amended: a well-formed 5-row-per-unit table with K units parses to
exactly K unit records, numbered 1..K in order when the titles are
sequential.  Fragmenting a competency, achievement or week data row into
two physical rows yields the same parsed units as the unfragmented table,
provided the first fragment retains the row's marker prefix, the second
fragment does not begin the marker the scan seeks next, and the cell-wise
space-merge reconstructs the logical row (first three conjunct groups
below).  Outside these conditions no blanket rule holds, in either
direction: a first-unit title wrap whose leading fragment keeps the
`Unidad n.` marker raises at the competency position (the
counterexample); a competency wrap that breaks the marker raises even
though the merge reconstructs the row (fifth group); a later unit's title
wrapped so that neither fragment carries the marker is silently absorbed
into the previous week row, emitting K-1 units with no error (sixth
group); and a header wrap whose first fragment lacks `SEMANA` is
repaired to the same parsed units (seventh group). -/
theorem c1_amended :
    (∀ bs : List UBlock, (∀ x ∈ bs, x.OK) →
        parse_units_from_table (blocksRows bs) = .ok (bs.map UBlock.unit) ∧
        ((∀ (i : Nat) (h : i < bs.length), (bs.get ⟨i, h⟩).num = (i : Int) + 1) →
          (bs.map UBlock.unit).map (·.number) = seqNums bs.length)) ∧
    (∀ (bs1 bs2 : List UBlock) (b : UBlock) (g0 g1 : Str) (t0 t1 : Row),
        (∀ x ∈ bs1, x.OK) → (∀ x ∈ bs2, x.OK) → b.OK →
        sw swComp g0 = true → sw swLogro g1 = false →
        joinRows (g0 :: t0) (g1 :: t1) = b.c1 :: b.r1 →
        parse_units_from_table (blocksRows bs1 ++
            ((b.c0 :: b.r0) :: (g0 :: t0) :: (g1 :: t1) :: (b.c2 :: b.r2) ::
              (b.c3 :: b.r3) :: (b.c4 :: b.r4) :: []) ++ blocksRows bs2) =
          parse_units_from_table (blocksRows (bs1 ++ b :: bs2))) ∧
    (∀ (bs1 bs2 : List UBlock) (b : UBlock) (g0 g1 : Str) (t0 t1 : Row),
        (∀ x ∈ bs1, x.OK) → (∀ x ∈ bs2, x.OK) → b.OK →
        sw swLogro g0 = true → sw swHdr g1 = false →
        joinRows (g0 :: t0) (g1 :: t1) = b.c2 :: b.r2 →
        parse_units_from_table (blocksRows bs1 ++
            ((b.c0 :: b.r0) :: (b.c1 :: b.r1) :: (g0 :: t0) :: (g1 :: t1) ::
              (b.c3 :: b.r3) :: (b.c4 :: b.r4) :: []) ++ blocksRows bs2) =
          parse_units_from_table (blocksRows (bs1 ++ b :: bs2))) ∧
    (∀ (bs1 bs2 : List UBlock) (b : UBlock) (g0 g1 : Str) (t0 t1 : Row),
        (∀ x ∈ bs1, x.OK) → (∀ x ∈ bs2, x.OK) → b.OK →
        sw swWeek g0 = true → sw swTitle g1 = false →
        joinRows (g0 :: t0) (g1 :: t1) = b.c4 :: b.r4 →
        parse_units_from_table (blocksRows bs1 ++
            ((b.c0 :: b.r0) :: (b.c1 :: b.r1) :: (b.c2 :: b.r2) ::
              (b.c3 :: b.r3) :: (g0 :: t0) :: (g1 :: t1) :: []) ++ blocksRows bs2) =
          parse_units_from_table (blocksRows (bs1 ++ b :: bs2))) ∧
    (joinRows (rowS ["COMPETENCIA"]) (rowS ["(S): x"]) =
        rowS ["COMPETENCIA (S): x"] ∧
      okB (parse_units_from_table c1compFragTab) = false ∧
      okB (parse_units_from_table c1compBaseTab) = true) ∧
    (joinRows (rowS ["Unidad"]) (rowS ["n. 2: Beta"]) =
        rowS ["Unidad n. 2: Beta"] ∧
      (parse_units_from_table c1absTab).map List.length = .ok 1) ∧
    (joinRows (rowS ["", "TEMARIO"]) (rowS ["SEMANA", ""]) =
        rowS ["SEMANA", "TEMARIO"] ∧
      parse_units_from_table c1hdrFragTab =
        parse_units_from_table c1hdrBaseTab ∧
      okB (parse_units_from_table c1hdrBaseTab) = true) := by
  refine ⟨?_, ?_, ?_, ?_, ⟨by decide, by decide, by decide⟩,
    ⟨by decide, by decide⟩, ⟨by decide, by decide, by decide⟩⟩
  · intro bs hok
    refine ⟨parse_units_blocks bs hok, ?_⟩
    intro hnum
    refine List.ext_getElem ?_ ?_
    · rw [List.length_map, List.length_map]
      simp [seqNums]
    · intro i h1 h2
      simp only [seqNums, List.getElem_map, List.getElem_range, UBlock.unit]
      have := hnum i (by
        rw [List.length_map, List.length_map] at h1
        exact h1)
      rw [List.get_eq_getElem] at this
      rw [this]
      simp
  · intro bs1 bs2 b g0 g1 t0 t1 hok1 hok2 hb h0 h1 hj
    exact parse_units_mid bs1 bs2 b _ hok1 hok2 hb
      (fun done rest' =>
        cleanAux_block_fragComp b hb.marks g0 g1 t0 t1 h0 h1 hj done rest')
  · intro bs1 bs2 b g0 g1 t0 t1 hok1 hok2 hb h0 h1 hj
    exact parse_units_mid bs1 bs2 b _ hok1 hok2 hb
      (fun done rest' =>
        cleanAux_block_fragLogro b hb.marks g0 g1 t0 t1 h0 h1 hj done rest')
  · intro bs1 bs2 b g0 g1 t0 t1 hok1 hok2 hb h0 h1 hj
    exact parse_units_mid bs1 bs2 b _ hok1 hok2 hb
      (fun done rest' =>
        cleanAux_block_fragWeek b hb.marks g0 g1 t0 t1 h0 h1 hj done rest')

/-- The concrete witness block is well formed. -/
theorem wBlk_ok : wBlk.OK :=
  ⟨by decide, by decide, by decide, by decide, by decide, by decide,
   by decide⟩

/-- C1 amended, witness: a one-unit table with a fragmented achievement
row parses to the same unit as the unfragmented table. -/
theorem c1_amended_witness :
    parse_units_from_table (blocksRows [] ++
        ((wBlk.c0 :: wBlk.r0) :: (wBlk.c1 :: wBlk.r1) ::
          ("LOGRO DE LA UNIDAD:".toList :: ([] : Row)) ::
          ("logro".toList :: ([] : Row)) ::
          (wBlk.c3 :: wBlk.r3) :: (wBlk.c4 :: wBlk.r4) :: []) ++
        blocksRows []) =
      parse_units_from_table (blocksRows ([] ++ wBlk :: [])) := by
  exact c1_amended.2.2.1 [] [] wBlk "LOGRO DE LA UNIDAD:".toList
    "logro".toList [] []
    (by intro x hx; cases hx) (by intro x hx; cases hx) wBlk_ok
    (by decide) (by decide) (by decide)

/-- C9 amended: the pipeline emits unit numbers exactly as parsed from the
title rows, in table order, with no enforcement of ordering or
uniqueness (see the counterexample); when the parsed numbers are strictly
increasing — in particular for sequential titles — the emitted units are
ordered by ascending number with no duplicate.  The credits and
total_weeks fields are whatever integers the general-info extractor
produced (defaults 0 and 16); no bound is enforced on them either. -/
theorem c9_amended :
    ∀ bs : List UBlock, (∀ x ∈ bs, x.OK) →
      ((parse_units_from_table (blocksRows bs)).map
          (fun us => us.map (·.number)) = .ok (bs.map (fun b => b.num))) ∧
      (List.Chain' (· < ·) (bs.map (fun b => b.num)) →
        ∀ us, parse_units_from_table (blocksRows bs) = .ok us →
          (us.map (·.number)).Chain' (· < ·) ∧ (us.map (·.number)).Nodup) := by
  intro bs hok
  have hp := parse_units_blocks bs hok
  have hmap : ((bs.map UBlock.unit).map (·.number)) =
      bs.map (fun b => b.num) := by
    simp [List.map_map, UBlock.unit, Function.comp]
  constructor
  · rw [hp]
    simp only [Except.map]
    rw [hmap]
  · intro hch us hus
    rw [hp] at hus
    cases hus
    rw [hmap]
    refine ⟨hch, ?_⟩
    have hpw : (bs.map fun b => b.num).Pairwise (· < ·) :=
      List.chain'_iff_pairwise.mp hch
    exact hpw.imp (fun h => ne_of_lt h)

/-- C9 amended, witness: a single sequential unit. -/
theorem c9_amended_witness :
    (parse_units_from_table (blocksRows [wBlk])).map
        (fun us => us.map (·.number)) = .ok [1] ∧
    (([wBlk].map UBlock.unit).map (·.number)).Chain' (· < ·) ∧
    (([wBlk].map UBlock.unit).map (·.number)).Nodup := by
  have hok : ∀ x ∈ [wBlk], x.OK := by
    intro x hx
    rw [List.mem_singleton] at hx
    subst hx
    exact wBlk_ok
  have h := c9_amended [wBlk] hok
  refine ⟨h.1.trans (by decide), ?_⟩
  exact h.2 (by simp) ([wBlk].map UBlock.unit)
    (parse_units_blocks [wBlk] hok)

/-- C9 counterexample: a structurally well-formed table whose unit titles
carry the numbers 2 then 1 is emitted as-is — the units list of the
resulting course is NOT ordered by ascending number. -/
theorem c9_counterexample :
    (parse_units_from_table c9tab).map (fun us => us.map (·.number)) =
      .ok [2, 1] ∧
    ¬ List.Chain' (· < ·) [(2 : Int), 1] := by
  refine ⟨by decide, ?_⟩
  simp [List.chain'_cons]

end UPC
